import Mathlib

/-!
# A shallow embedding of the bookchat aggregation-and-cache layer

This file embeds, in Lean, the parts of the bookchat repository that the
specification's claims are about:

* `repository_manager.py` — the in-memory source registry
  (`RepositoryManager.add_repository`, `remove_repository`,
  `fetch_messages_from_all`);
* `database.py` — the SQLite-backed local store
  (`Database.add_repository`, `get_repository_id`, `save_message`,
  `get_messages`), modelled as a pure state (`DB`) whose schema constraints
  (`PRIMARY KEY` ids, `UNIQUE(owner, name)`) become the well-formedness
  predicate `DB.WF` on reachable states;
* `server.py` — the HTTP handler's read path (`_get_all_messages`, the
  module-level cache `message_cache` / `last_cache_update` / `CACHE_DURATION`)
  and write path (`do_POST` for `/chat`).

Modelling conventions:

* Timestamps are `Nat`. The source stores `CURRENT_TIMESTAMP` strings and
  compares them lexicographically; that comparison is order-isomorphic to
  instants, so a linearly ordered `Nat` clock preserves all ordering
  behaviour. The clock is passed explicitly wherever the source calls
  `datetime.now()`, and `CACHE_DURATION` (5 minutes) is 300 clock units.
* Python's `list.sort(key=..., reverse=True)` is a stable descending sort;
  it is embedded as the stable insertion sort `sortByKeyDesc`. The SQL
  `ORDER BY m.timestamp DESC` in `Database.get_messages` is embedded with the
  same stable sort over the table in rowid (insertion) order; SQLite leaves
  the tie order unspecified, and this model fixes it deterministically.
* Network effects (PyGithub calls) are collaborator capabilities passed as
  function arguments: a fetch either returns a commit list or fails
  (`Except String _`), matching the `try/except` blocks around them. Note
  that in `server.py` the name `Github` is not imported, so in the running
  program the publish capability always fails; the embedding keeps it as a
  parameter covering both outcomes.
* `Repository.last_sync` bookkeeping is omitted: no claim observes it.
-/

/-- Source `repository_manager.py` — the `Repository` dataclass (the `last_sync`
field is omitted; no claim observes it). -/
structure Repository where
  owner : String
  name : String
  token : String
deriving DecidableEq, Repr

/-- Source `Repository.full_name`: `f"{self.owner}/{self.name}"`. -/
def Repository.full_name (r : Repository) : String :=
  r.owner ++ "/" ++ r.name

namespace RepositoryManager

/-- Source `RepositoryManager.add_repository`: constructs a `Repository` and appends
it to `self.repositories`, returning the new object. -/
def add_repository (repos : List Repository) (owner name token : String) :
    List Repository × Repository :=
  let repo : Repository := ⟨owner, name, token⟩
  (repos ++ [repo], repo)

/-- Source `RepositoryManager.remove_repository`: keeps exactly the entries whose
`(owner, name)` differs from the argument. -/
def remove_repository (repos : List Repository) (owner name : String) :
    List Repository :=
  repos.filter (fun r => !(r.owner == owner && r.name == name))

end RepositoryManager

/-- A row of the `repositories` table (`database.py`, `_init_db`). -/
structure RepoRow where
  id : Nat
  owner : String
  name : String
deriving DecidableEq, Repr

/-- A row of the `messages` table (`database.py`, `_init_db`). -/
structure MsgRow where
  id : Nat
  repository_id : Nat
  message : String
  timestamp : Nat
  github_url : Option String
  commit_sha : Option String
  author : Option String
deriving DecidableEq, Repr

/-- The SQLite database state: both tables in rowid (insertion) order, plus
the next `AUTOINCREMENT` value of each (SQLite starts them at 1). -/
structure DB where
  repos : List RepoRow
  nextRepoId : Nat
  msgs : List MsgRow
  nextMsgId : Nat
deriving DecidableEq, Repr

/-- The fresh database produced by `Database._init_db`. -/
def DB.empty : DB := ⟨[], 1, [], 1⟩

/-- The schema constraints of `_init_db` as an invariant on reachable states:
`id INTEGER PRIMARY KEY` on both tables and `UNIQUE(owner, name)` on
`repositories`. -/
def DB.WF (db : DB) : Prop :=
  (db.repos.map (fun r => r.id)).Nodup ∧
  (db.repos.map (fun r => (r.owner, r.name))).Nodup ∧
  (db.msgs.map (fun m => m.id)).Nodup

instance (db : DB) : Decidable db.WF := by
  unfold DB.WF; infer_instance

/-- Source `Database.get_repository_id`: `SELECT id FROM repositories WHERE owner = ?
AND name = ?`, `None` when absent. -/
def DB.get_repository_id (db : DB) (owner name : String) : Option Nat :=
  (db.repos.find? (fun r => r.owner == owner && r.name == name)).map (fun r => r.id)

/-- Source `Database.add_repository`: `INSERT OR IGNORE INTO repositories` followed by
`SELECT id ...`; returns the updated state and the selected id. -/
def DB.add_repository (db : DB) (owner name : String) : DB × Nat :=
  match db.get_repository_id owner name with
  | some i => (db, i)
  | none =>
      ({ db with
          repos := db.repos ++ [⟨db.nextRepoId, owner, name⟩],
          nextRepoId := db.nextRepoId + 1 },
        db.nextRepoId)

/-- Source `Database.save_message`: `INSERT INTO messages ...`; the `timestamp`
column defaults to `CURRENT_TIMESTAMP`, passed here as the clock value `ts`.
Returns the updated state and `cursor.lastrowid`. -/
def DB.save_message (db : DB) (message : String) (repository_id : Nat)
    (github_url commit_sha author : Option String) (ts : Nat) : DB × Nat :=
  ({ db with
      msgs := db.msgs ++ [⟨db.nextMsgId, repository_id, message, ts, github_url, commit_sha, author⟩],
      nextMsgId := db.nextMsgId + 1 },
    db.nextMsgId)

/-- One element of the list built by `Database.get_messages` (the dict with
keys `id, message, timestamp, github_url, repository, author, commit_sha`). -/
structure MsgOut where
  id : Nat
  message : String
  timestamp : Nat
  github_url : Option String
  repository : String
  author : Option String
  commit_sha : Option String
deriving DecidableEq, Repr

/-- Stable insertion step of the descending-by-key sort: the new element goes
in front of the first element whose key is `≤` its own, so earlier elements
with an equal key stay in front of it. -/
def insertByKeyDesc (key : α → Nat) (m : α) : List α → List α
  | [] => [m]
  | x :: xs => if key x ≤ key m then m :: x :: xs else x :: insertByKeyDesc key m xs

/-- Stable descending sort by `key`: the behaviour of Python's
`list.sort(key=..., reverse=True)` (stable, descending), also used for the
SQL `ORDER BY ... DESC` with rowid tie order. -/
def sortByKeyDesc (key : α → Nat) : List α → List α
  | [] => []
  | x :: xs => insertByKeyDesc key x (sortByKeyDesc key xs)

/-- The projection of one joined row of `Database.get_messages` to the
result dict (`database.py` lines 99–107): message columns plus
`f"{owner}/{name}"`. -/
def rowToOut (p : MsgRow × RepoRow) : MsgOut :=
  { id := p.1.id, message := p.1.message, timestamp := p.1.timestamp,
    github_url := p.1.github_url,
    repository := p.2.owner ++ "/" ++ p.2.name,
    author := p.1.author, commit_sha := p.1.commit_sha }

/-- Source `Database.get_messages`: the `JOIN` of `messages` with `repositories` on
`m.repository_id = r.id`, the optional `WHERE m.repository_id = ?` filter,
`ORDER BY m.timestamp DESC`, `LIMIT ?`, and the projection to the result
dict. -/
def DB.get_messages (db : DB) (limit : Nat) (repository_id : Option Nat) :
    List MsgOut :=
  let joined := db.msgs.flatMap (fun m =>
    (db.repos.filter (fun r => r.id == m.repository_id)).map (fun r => (m, r)))
  let filtered := match repository_id with
    | some rid => joined.filter (fun p => p.1.repository_id == rid)
    | none => joined
  let sorted := sortByKeyDesc (fun p => p.1.timestamp) filtered
  (sorted.take limit).map rowToOut

/-- Source `server.py` line 26: `CACHE_DURATION = timedelta(minutes=5)`; the clock is
in seconds. -/
def CACHE_DURATION : Nat := 300

/-- The cache-hit test of `_get_all_messages` (line 131): the cached value is
served iff `(current_time - last_cache_update) < CACHE_DURATION and
message_cache` — the second conjunct is Python truthiness, so an **empty**
cached payload never hits. -/
def cache_get (message_cache : List MsgOut) (last_cache_update now : Nat) :
    Option (List MsgOut) :=
  if now - last_cache_update < CACHE_DURATION ∧ message_cache ≠ [] then
    some message_cache
  else none

/-- The cache-store step of `_get_all_messages` (lines 146–147):
`message_cache = messages; last_cache_update = current_time`. -/
def cache_put (payload : List MsgOut) (now : Nat) : List MsgOut × Nat :=
  (payload, now)

/-- The per-repository collection loop of `_get_all_messages` (lines 135–140):
for each registered repository, resolve its database id and extend the list
with its stored messages; unresolved repositories are skipped. -/
def collectMessages (repos : List Repository) (db : DB) : List MsgOut :=
  repos.foldl (fun acc repo =>
    match db.get_repository_id repo.owner repo.name with
    | some rid => acc ++ db.get_messages 100 (some rid)
    | none => acc) []

/-- The cache-miss computation of `_get_all_messages` (lines 135–143):
collect per-repository messages, then
`messages.sort(key=lambda x: x['timestamp'], reverse=True)`. -/
def computeAllMessages (repos : List Repository) (db : DB) : List MsgOut :=
  sortByKeyDesc (fun m => m.timestamp) (collectMessages repos db)

/-- Source `ChatRequestHandler._get_all_messages`: serve the cache on a hit,
otherwise recompute and store. Returns the served list together with the new
`(message_cache, last_cache_update)` state. -/
def get_all_messages (repos : List Repository) (db : DB)
    (message_cache : List MsgOut) (last_cache_update now : Nat) :
    List MsgOut × List MsgOut × Nat :=
  match cache_get message_cache last_cache_update now with
  | some cached => (cached, message_cache, last_cache_update)
  | none =>
      let messages := computeAllMessages repos db
      let (c, t) := cache_put messages now
      (messages, c, t)

/-- The response of `do_GET` for a handled path. -/
structure GetResult where
  status : Nat
  messages : List MsgOut
  new_cache : List MsgOut
  new_last_update : Nat
deriving DecidableEq, Repr

/-- Source `ChatRequestHandler.do_GET`: on `/messages` it sends status 200 and the
JSON body `{'messages': ...}` built from `_get_all_messages`; any other path
falls through to `SimpleHTTPRequestHandler` (modelled as `none`). -/
def do_GET (path : String) (repos : List Repository) (db : DB)
    (message_cache : List MsgOut) (last_cache_update now : Nat) :
    Option GetResult :=
  if path = "/messages" then
    let (msgs, c, t) := get_all_messages repos db message_cache last_cache_update now
    some { status := 200, messages := msgs, new_cache := c, new_last_update := t }
  else none

/-- A JSON value, as far as the serialized message dicts need. -/
inductive JsonVal where
  | jnull : JsonVal
  | jstr : String → JsonVal
  | jnum : Nat → JsonVal
deriving DecidableEq, Repr

/-- Source `json.dumps` of an optional string: `null` or the string. -/
def optToJson : Option String → JsonVal
  | none => JsonVal.jnull
  | some s => JsonVal.jstr s

/-- The key/value pairs of the JSON object serialized for one message, in the
order the dict is built in `Database.get_messages` (lines 99–107). -/
def MsgOut.toJsonFields (m : MsgOut) : List (String × JsonVal) :=
  [("id", JsonVal.jnum m.id),
   ("message", JsonVal.jstr m.message),
   ("timestamp", JsonVal.jnum m.timestamp),
   ("github_url", optToJson m.github_url),
   ("repository", JsonVal.jstr m.repository),
   ("author", optToJson m.author),
   ("commit_sha", optToJson m.commit_sha)]

/-- The commit data `fetch_messages_from_all` and `do_POST` read off one
PyGithub commit object (`commit.commit.message`, `commit.commit.author.date`,
`commit.commit.author.name`, `commit.html_url`, `commit.sha`). -/
structure Commit where
  message : String
  date : Nat
  author_name : String
  html_url : String
  sha : String
deriving DecidableEq, Repr

/-- One dict built inside `RepositoryManager.fetch_messages_from_all`
(lines 78–85); note its hash key is named `sha`, not `commit_sha`, and it has
no local `id`. -/
structure RemoteMsg where
  repository : String
  message : String
  timestamp : Nat
  author : String
  github_url : String
  sha : String
deriving DecidableEq, Repr

/-- The dict construction of `fetch_messages_from_all` for one commit. -/
def commitToMessage (repo : Repository) (c : Commit) : RemoteMsg :=
  { repository := repo.full_name, message := c.message, timestamp := c.date,
    author := c.author_name, github_url := c.html_url, sha := c.sha }

/-- Source `RepositoryManager.fetch_messages_from_all`: iterate over the registered
repositories; a successful fetch appends that repository's commit messages,
a failed one appends one `print` diagnostic and continues; finally the
collected list is sorted by timestamp descending (stable). Returns
`(messages, diagnostics)`. The remote capability `fetchCommits` stands for
`Github(token).get_repo(...).get_commits()`. -/
def fetch_messages_from_all (repos : List Repository)
    (fetchCommits : Repository → Except String (List Commit)) :
    List RemoteMsg × List String :=
  let folded := repos.foldl (fun acc repo =>
    match fetchCommits repo with
    | Except.ok commits => (acc.1 ++ commits.map (commitToMessage repo), acc.2)
    | Except.error e =>
        (acc.1, acc.2 ++ ["Error fetching from " ++ repo.full_name ++ ": " ++ e]))
    ([], [])
  (sortByKeyDesc (fun m => m.timestamp) folded.1, folded.2)

/-- One element of the `responses` list built by `do_POST` (lines 92–103). -/
structure PostResponse where
  repository : String
  status : String
  github_url : Option String
  error : Option String
deriving DecidableEq, Repr

/-- The body of `do_POST`'s per-repository loop (lines 57–103): resolve or
create the repository row, save the message (first `save_message`, without
GitHub metadata), attempt the remote publish, and on success save it again
with the metadata; on failure record an error response. The publish
capability `create_commit` stands for the `Github(...).create_file` block —
in the source `Github` is not imported at this call site, so the running
program always takes the error branch with a `NameError`. -/
def postStep (create_commit : Repository → String → Except String Commit)
    (message : String) (ts : Nat) (acc : DB × List PostResponse)
    (repo : Repository) : DB × List PostResponse :=
  let db := acc.1
  let responses := acc.2
  let resolved :=
    match db.get_repository_id repo.owner repo.name with
    | some i => (db, i)
    | none => db.add_repository repo.owner repo.name
  let db1 := resolved.1
  let repo_id := resolved.2
  let saved := db1.save_message message repo_id none none none ts
  let db2 := saved.1
  match create_commit repo message with
  | Except.ok c =>
      let saved2 := db2.save_message message repo_id
        (some c.html_url) (some c.sha) (some c.author_name) ts
      (saved2.1, responses ++
        [{ repository := repo.full_name, status := "success",
           github_url := some c.html_url, error := none }])
  | Except.error e =>
      (db2, responses ++
        [{ repository := repo.full_name, status := "error",
           github_url := none, error := some e }])

/-- The overall response of `do_POST` on `/chat`. -/
structure PostResult where
  status_code : Nat
  body_status : String
  responses : List PostResponse
deriving DecidableEq, Repr

/-- Source `ChatRequestHandler.do_POST` on `/chat`: an absent or empty (falsy)
`message` raises `ValueError` and yields a 500 error; otherwise every
registered repository is processed by `postStep` and a 200 success response
is returned with the per-repository results. The cache state is not an
argument: the write path never reads or writes `message_cache` /
`last_cache_update`. Returns the new database and the HTTP result. -/
def do_POST (repos : List Repository) (db : DB) (message? : Option String)
    (create_commit : Repository → String → Except String Commit) (ts : Nat) :
    DB × PostResult :=
  match message? with
  | none => (db, { status_code := 500, body_status := "error", responses := [] })
  | some message =>
      if message = "" then
        (db, { status_code := 500, body_status := "error", responses := [] })
      else
        let folded := repos.foldl (postStep create_commit message ts) (db, [])
        (folded.1,
          { status_code := 200, body_status := "success", responses := folded.2 })

/-- Whether the remote fetch capability succeeds on a repository (the
`try` block of `fetch_messages_from_all` completing without exception). -/
def fetchSucceeds (fetchCommits : Repository → Except String (List Commit))
    (repo : Repository) : Bool :=
  match fetchCommits repo with
  | Except.ok _ => true
  | Except.error _ => false

/-! ## Concrete states and claim predicates used by the theorems -/

/-- The per-repository contribution of the loop in `_get_all_messages`. -/
def localChunk (db : DB) (repo : Repository) : List MsgOut :=
  match db.get_repository_id repo.owner repo.name with
  | some rid => db.get_messages 100 (some rid)
  | none => []

/-- The message contribution of one repository in `fetch_messages_from_all`:
its mapped commits on success, nothing on failure. -/
def remoteChunk (fetchCommits : Repository → Except String (List Commit))
    (repo : Repository) : List RemoteMsg :=
  match fetchCommits repo with
  | Except.ok commits => commits.map (commitToMessage repo)
  | Except.error _ => []

/-- The diagnostic contribution of one repository in
`fetch_messages_from_all`: one `print` line on failure, nothing on success. -/
def diagChunk (fetchCommits : Repository → Except String (List Commit))
    (repo : Repository) : List String :=
  match fetchCommits repo with
  | Except.ok _ => []
  | Except.error e => ["Error fetching from " ++ repo.full_name ++ ": " ++ e]

/-- A concrete served message, used to instantiate witnesses. -/
def sampleMsg : MsgOut :=
  { id := 1, message := "hi", timestamp := 0,
    github_url := none, repository := "alice/chat", author := none,
    commit_sha := none }

/-- The concrete publish capability used in witnesses: always succeeds with
one fixed commit. -/
def publishOk : Repository → String → Except String Commit :=
  fun _ _ => Except.ok ⟨"hello", 7, "bob", "http://u", "sha1"⟩

/-- A registered repository used in concrete scenarios. -/
def repoA : Repository := ⟨"alice", "chat", "tok"⟩

/-- A database that already contains `repoA` (id 1) and no messages. -/
def dbA : DB := ⟨[⟨1, "alice", "chat"⟩], 2, [], 1⟩

/-- The database state after a successful POST of `"hello"` against `dbA`. -/
def dbAfterPost : DB := (do_POST [repoA] dbA (some "hello") publishOk 10).1

/-- The remote fetch capability that always fails (for instance with a
timeout). -/
def fetchFail : Repository → Except String (List Commit) :=
  fun _ => Except.error "timeout"

/-- A database holding `repoA` (id 1) and one stored message `"hello"`. -/
def dbB : DB := ⟨[⟨1, "alice", "chat"⟩], 2, [⟨1, 1, "hello", 3, none, none, none⟩], 2⟩

/-- The claim's tie-break key order on served messages: source identity
(the `repository` field, compared lexicographically through its character
list) first, then local `id`. -/
def identityKeyLe (a b : MsgOut) : Prop :=
  a.repository.data < b.repository.data ∨
    (a.repository = b.repository ∧ a.id ≤ b.id)

instance (a b : MsgOut) : Decidable (identityKeyLe a b) := by
  unfold identityKeyLe; infer_instance

/-- The claim's tie-break rule, read in either direction: any two
equal-timestamp entries of the output are ordered by (source identity, id),
ascending throughout or descending throughout. -/
def tiesBrokenByIdentity (l : List MsgOut) : Prop :=
  l.Pairwise (fun a b => a.timestamp = b.timestamp → identityKeyLe a b) ∨
  l.Pairwise (fun a b => a.timestamp = b.timestamp → identityKeyLe b a)

instance (l : List MsgOut) : Decidable (tiesBrokenByIdentity l) := by
  unfold tiesBrokenByIdentity; infer_instance

/-- Registered source `"o/b"`, first in registry order. -/
def repoB : Repository := ⟨"o", "b", "t"⟩

/-- Registered source `"o/a"`, second in registry order. -/
def repoA2 : Repository := ⟨"o", "a", "t"⟩

/-- Registered source `"o/c"`, third in registry order. -/
def repoC : Repository := ⟨"o", "c", "t"⟩

/-- A database with the three sources `o/b`, `o/a`, `o/c` (ids 1, 2, 3) and
one message each, all sharing timestamp 5. -/
def dbTies : DB :=
  ⟨[⟨1, "o", "b"⟩, ⟨2, "o", "a"⟩, ⟨3, "o", "c"⟩], 4,
    [⟨1, 1, "mb", 5, none, none, none⟩, ⟨2, 2, "ma", 5, none, none, none⟩,
      ⟨3, 3, "mc", 5, none, none, none⟩], 4⟩

/-! ## Generic lemmas about the stable descending sort -/

theorem insertByKeyDesc_perm (key : α → Nat) (m : α) (l : List α) :
    (insertByKeyDesc key m l).Perm (m :: l) := by
  induction l with
  | nil => simp [insertByKeyDesc]
  | cons x xs ih =>
      by_cases h : key x ≤ key m
      · simp [insertByKeyDesc, h]
      · simp only [insertByKeyDesc, if_neg h]
        exact (ih.cons x).trans (List.Perm.swap m x xs)

theorem sortByKeyDesc_perm (key : α → Nat) (l : List α) :
    (sortByKeyDesc key l).Perm l := by
  induction l with
  | nil => simp [sortByKeyDesc]
  | cons x xs ih =>
      exact (insertByKeyDesc_perm key x (sortByKeyDesc key xs)).trans (ih.cons x)

theorem insertByKeyDesc_pairwise (key : α → Nat) (m : α) (l : List α)
    (h : l.Pairwise (fun a b => key b ≤ key a)) :
    (insertByKeyDesc key m l).Pairwise (fun a b => key b ≤ key a) := by
  induction l with
  | nil => simp [insertByKeyDesc]
  | cons x xs ih =>
      rcases List.pairwise_cons.mp h with ⟨hx, hxs⟩
      by_cases hk : key x ≤ key m
      · simp only [insertByKeyDesc, if_pos hk]
        refine List.pairwise_cons.mpr ⟨?_, h⟩
        intro b hb
        rcases List.mem_cons.mp hb with rfl | hb
        · exact hk
        · exact le_trans (hx b hb) hk
      · simp only [insertByKeyDesc, if_neg hk]
        refine List.pairwise_cons.mpr ⟨?_, ih hxs⟩
        intro b hb
        have hb' := (insertByKeyDesc_perm key m xs).mem_iff.mp hb
        rcases List.mem_cons.mp hb' with rfl | hb'
        · exact le_of_lt (lt_of_not_le hk)
        · exact hx b hb'

theorem sortByKeyDesc_pairwise (key : α → Nat) (l : List α) :
    (sortByKeyDesc key l).Pairwise (fun a b => key b ≤ key a) := by
  induction l with
  | nil => simp [sortByKeyDesc]
  | cons x xs ih => exact insertByKeyDesc_pairwise key x _ ih

theorem insertByKeyDesc_filter_ne (key : α → Nat) (m : α) (l : List α)
    (t : Nat) (h : key m ≠ t) :
    (insertByKeyDesc key m l).filter (fun a => key a == t) =
      l.filter (fun a => key a == t) := by
  induction l with
  | nil => simp [insertByKeyDesc, List.filter_cons, h]
  | cons x xs ih =>
      by_cases hk : key x ≤ key m
      · simp [insertByKeyDesc, if_pos hk, List.filter_cons, h]
      · simp only [insertByKeyDesc, if_neg hk]
        simp [List.filter_cons, ih]

theorem insertByKeyDesc_filter_eq (key : α → Nat) (m : α) (l : List α)
    (t : Nat) (hs : l.Pairwise (fun a b => key b ≤ key a)) (h : key m = t) :
    (insertByKeyDesc key m l).filter (fun a => key a == t) =
      m :: l.filter (fun a => key a == t) := by
  subst h
  induction l with
  | nil => simp [insertByKeyDesc, List.filter_cons]
  | cons x xs ih =>
      rcases List.pairwise_cons.mp hs with ⟨_, hxs⟩
      by_cases hk : key x ≤ key m
      · simp [insertByKeyDesc, if_pos hk, List.filter_cons]
      · have hx : ¬ key x = key m := fun hxe => hk (le_of_eq hxe)
        simp only [insertByKeyDesc, if_neg hk]
        simp [List.filter_cons, hx, ih hxs]

theorem sortByKeyDesc_filter_key (key : α → Nat) (l : List α) (t : Nat) :
    (sortByKeyDesc key l).filter (fun a => key a == t) =
      l.filter (fun a => key a == t) := by
  induction l with
  | nil => simp [sortByKeyDesc]
  | cons x xs ih =>
      show (insertByKeyDesc key x (sortByKeyDesc key xs)).filter _ = _
      by_cases hx : key x = t
      · rw [insertByKeyDesc_filter_eq key x _ t (sortByKeyDesc_pairwise key xs) hx, ih]
        simp [List.filter_cons, hx]
      · rw [insertByKeyDesc_filter_ne key x _ t hx, ih]
        simp [List.filter_cons, hx]

/-! ## Unfolding the collection folds into flat maps -/

theorem foldl_append_eq_flatMap (g : β → List α) (l : List β) :
    ∀ init : List α,
      l.foldl (fun acc x => acc ++ g x) init = init ++ l.flatMap g := by
  induction l with
  | nil => intro init; simp
  | cons x xs ih => intro init; simp [List.foldl, ih]

theorem foldl_append_pair_eq_flatMap (g1 : β → List α) (g2 : β → List γ)
    (l : List β) : ∀ a : List α, ∀ b : List γ,
      l.foldl (fun acc x => (acc.1 ++ g1 x, acc.2 ++ g2 x)) (a, b) =
        (a ++ l.flatMap g1, b ++ l.flatMap g2) := by
  induction l with
  | nil => intro a b; simp
  | cons x xs ih => intro a b; simp [List.foldl, ih]

theorem collectMessages_eq_flatMap (repos : List Repository) (db : DB) :
    collectMessages repos db = repos.flatMap (localChunk db) := by
  have hf : (fun (acc : List MsgOut) repo =>
      match db.get_repository_id repo.owner repo.name with
      | some rid => acc ++ db.get_messages 100 (some rid)
      | none => acc) =
      (fun acc repo => acc ++ localChunk db repo) := by
    funext acc repo
    unfold localChunk
    cases db.get_repository_id repo.owner repo.name <;> simp
  unfold collectMessages
  rw [hf, foldl_append_eq_flatMap]
  simp

theorem fetch_messages_from_all_eq_flatMap (repos : List Repository)
    (fetchCommits : Repository → Except String (List Commit)) :
    fetch_messages_from_all repos fetchCommits =
      (sortByKeyDesc (fun m => m.timestamp) (repos.flatMap (remoteChunk fetchCommits)),
        repos.flatMap (diagChunk fetchCommits)) := by
  have hf : (fun (acc : List RemoteMsg × List String) repo =>
      match fetchCommits repo with
      | Except.ok commits => (acc.1 ++ commits.map (commitToMessage repo), acc.2)
      | Except.error e =>
          (acc.1, acc.2 ++ ["Error fetching from " ++ repo.full_name ++ ": " ++ e])) =
      (fun acc repo => (acc.1 ++ remoteChunk fetchCommits repo,
        acc.2 ++ diagChunk fetchCommits repo)) := by
    funext acc repo
    unfold remoteChunk diagChunk
    cases fetchCommits repo <;> simp
  unfold fetch_messages_from_all
  rw [hf, foldl_append_pair_eq_flatMap]
  simp

/-! ## Claims about the source registry (C6, C8) -/

/-- C6, counterexample: `RepositoryManager.add_repository` is **not**
idempotent against a duplicate `(owner, name)`. Re-adding `("alice", "chat")`
with a different credential appends a second entry and leaves the first
credential untouched, so the identity is no longer unique in the registry. -/
theorem add_repository_duplicate_counterexample :
    (RepositoryManager.add_repository
      (RepositoryManager.add_repository [] "alice" "chat" "tok1").1
      "alice" "chat" "tok2").1 =
      [⟨"alice", "chat", "tok1"⟩, ⟨"alice", "chat", "tok2"⟩] ∧
    ¬ (((RepositoryManager.add_repository
      (RepositoryManager.add_repository [] "alice" "chat" "tok1").1
      "alice" "chat" "tok2").1.map (fun r => (r.owner, r.name))).Nodup) := by
  constructor
  · rfl
  · decide

/-- C6, amended: `RepositoryManager.add_repository` always appends a fresh
entry holding the given credential, so re-adding an existing `(owner, name)`
increases the number of entries with that identity by one (the old entry and
its credential are kept; nothing is updated or deduplicated). -/
theorem add_repository_appends_duplicate (repos : List Repository)
    (owner name token : String) :
    (RepositoryManager.add_repository repos owner name token).1 =
      repos ++ [⟨owner, name, token⟩] ∧
    ((RepositoryManager.add_repository repos owner name token).1.filter
        (fun r => r.owner == owner && r.name == name)).length =
      (repos.filter (fun r => r.owner == owner && r.name == name)).length + 1 := by
  refine ⟨rfl, ?_⟩
  simp [RepositoryManager.add_repository, List.filter_append]

/-- C8: `RepositoryManager.remove_repository` is a no-op when no entry with
identity `(owner, name)` is present; otherwise it removes exactly the
matching entries, keeping every other entry in its original order (the
result is a sublist of the input). -/
theorem remove_repository_frame (repos : List Repository)
    (owner name : String) :
    ((∀ r ∈ repos, ¬(r.owner = owner ∧ r.name = name)) →
      RepositoryManager.remove_repository repos owner name = repos) ∧
    (∀ r ∈ RepositoryManager.remove_repository repos owner name,
      ¬(r.owner = owner ∧ r.name = name)) ∧
    (∀ r ∈ repos, ¬(r.owner = owner ∧ r.name = name) →
      r ∈ RepositoryManager.remove_repository repos owner name) ∧
    (RepositoryManager.remove_repository repos owner name).Sublist repos := by
  refine ⟨?_, ?_, ?_, List.filter_sublist _⟩
  · intro h
    unfold RepositoryManager.remove_repository
    apply List.filter_eq_self.mpr
    intro r hr
    have := h r hr
    simp only [Bool.not_eq_true', Bool.not_eq_eq_eq_not, Bool.not_true,
      Bool.and_eq_false_imp] at *
    simp only [beq_iff_eq, Bool.not_eq_true]
    rcases Decidable.em (r.owner = owner) with ho | ho
    · simp [ho]
      intro hn
      exact absurd ⟨ho, hn⟩ this
    · simp [ho]
  · intro r hr
    have := (List.mem_filter.mp hr).2
    intro ⟨ho, hn⟩
    simp [ho, hn] at this
  · intro r hr hprop
    apply List.mem_filter.mpr
    refine ⟨hr, ?_⟩
    rcases Decidable.em (r.owner = owner) with ho | ho
    · have hn : ¬ r.name = name := fun hn => hprop ⟨ho, hn⟩
      simp [ho, hn]
    · simp [ho]

/-- C8, witness: removing an absent identity from a one-entry registry leaves
it unchanged. -/
theorem remove_repository_frame_witness :
    RepositoryManager.remove_repository [⟨"alice", "chat", "t"⟩] "bob" "notes" =
      [⟨"alice", "chat", "t"⟩] :=
  (remove_repository_frame [⟨"alice", "chat", "t"⟩] "bob" "notes").1 (by decide)

/-! ## Claims about the local store (C10) -/

theorem find?_append_none {p : α → Bool} {l1 : List α} (l2 : List α)
    (h : l1.find? p = none) : (l1 ++ l2).find? p = l2.find? p := by
  induction l1 with
  | nil => simp
  | cons x xs ih =>
      cases hp : p x with
      | true =>
          rw [List.find?_cons_of_pos _ hp] at h
          exact absurd h (by simp)
      | false =>
          have hnp : ¬ p x = true := by simp [hp]
          rw [List.find?_cons_of_neg _ hnp] at h
          rw [List.cons_append, List.find?_cons_of_neg _ hnp]
          exact ih h

/-- Source `Database.add_repository` on an already-present identity: the
`INSERT OR IGNORE` is a no-op and the `SELECT` returns the existing id. -/
theorem db_add_repository_of_present (db : DB) (owner name : String) (i : Nat)
    (h : db.get_repository_id owner name = some i) :
    db.add_repository owner name = (db, i) := by
  unfold DB.add_repository
  rw [h]

/-- C10: `Database.add_repository` is idempotent. When `(owner, name)` is
already present it changes nothing and returns the existing id; after any
call, `get_repository_id` resolves to the id that call returned, so a second
call inserts no row and returns the same id as the first. -/
theorem db_add_repository_idempotent (db : DB) (owner name : String) :
    (∀ i, db.get_repository_id owner name = some i →
      db.add_repository owner name = (db, i)) ∧
    ((db.add_repository owner name).1.get_repository_id owner name =
      some (db.add_repository owner name).2) ∧
    ((db.add_repository owner name).1.add_repository owner name =
      ((db.add_repository owner name).1, (db.add_repository owner name).2)) := by
  have hafter : (db.add_repository owner name).1.get_repository_id owner name =
      some (db.add_repository owner name).2 := by
    unfold DB.add_repository
    cases hm : db.get_repository_id owner name with
    | some i => simpa using hm
    | none =>
        simp only [DB.get_repository_id] at *
        have hfind : db.repos.find?
            (fun r => r.owner == owner && r.name == name) = none := by
          cases hf : db.repos.find? (fun r => r.owner == owner && r.name == name) with
          | none => rfl
          | some r => rw [hf] at hm; simp at hm
        simp [find?_append_none _ hfind, List.find?]
  exact ⟨fun i h => db_add_repository_of_present db owner name i h, hafter,
    db_add_repository_of_present _ owner name _ hafter⟩

/-- C10, witness: adding `("alice", "chat")` twice to the empty database
yields the same state and id as adding it once, namely id 1. -/
theorem db_add_repository_idempotent_witness :
    (DB.empty.add_repository "alice" "chat").1.add_repository "alice" "chat" =
      ((DB.empty.add_repository "alice" "chat").1, 1) := by
  have h := (db_add_repository_idempotent
    (DB.empty.add_repository "alice" "chat").1 "alice" "chat").1 1 (by decide)
  exact h

/-! ## Claims about the cache (C4) -/

/-- C4, counterexample: a payload stored by the cache put is **not** always
returned while fresh. The empty payload is falsy in the hit test
`... and message_cache`, so immediately after storing `[]` (at time 5, read
at time 5, well within the TTL) the get is a miss. -/
theorem cache_get_empty_payload_counterexample :
    cache_get (cache_put ([] : List MsgOut) 5).1 (cache_put ([] : List MsgOut) 5).2 5 =
      none ∧
    5 - (cache_put ([] : List MsgOut) 5).2 < CACHE_DURATION := by
  constructor
  · rfl
  · decide

/-- C4, amended: for every **nonempty** payload stored at time `t`, a get at
time `now` returns exactly that payload when `now - t < CACHE_DURATION` (in
particular immediately after the put) and misses when
`now - t ≥ CACHE_DURATION`; an empty stored payload always misses. -/
theorem cache_get_ttl (payload : List MsgOut) (t now : Nat)
    (hne : payload ≠ []) :
    (now - t < CACHE_DURATION →
      cache_get (cache_put payload t).1 (cache_put payload t).2 now =
        some payload) ∧
    (CACHE_DURATION ≤ now - t →
      cache_get (cache_put payload t).1 (cache_put payload t).2 now = none) := by
  constructor
  · intro h
    simp only [cache_put, cache_get]
    rw [if_pos ⟨h, hne⟩]
  · intro h
    simp only [cache_put, cache_get]
    rw [if_neg]
    intro hc
    exact absurd hc.1 (not_lt.mpr h)

/-- C4, witness: the concrete one-element payload `[sampleMsg]` stored at
time 0 is returned at time 10 and missed at time 300. -/
theorem cache_get_ttl_witness :
    cache_get (cache_put [sampleMsg] 0).1 (cache_put [sampleMsg] 0).2 10 =
      some [sampleMsg] ∧
    cache_get (cache_put [sampleMsg] 0).1 (cache_put [sampleMsg] 0).2 300 =
      none :=
  ⟨(cache_get_ttl _ 0 10 (by decide)).1 (by decide),
    (cache_get_ttl _ 0 300 (by decide)).2 (by decide)⟩

/-! ## Claims about the HTTP read surface (C7) -/

/-- C7: `do_GET` on `/messages` always serves HTTP status 200, for every
registry, database and cache state (in particular under partial failure,
where unresolved repositories were merely skipped), and each served message
serializes to a JSON object with exactly the seven keys
`id, message, timestamp, repository, author, github_url, commit_sha`
(no duplicates, nothing else). -/
theorem get_messages_response_shape (repos : List Repository) (db : DB)
    (message_cache : List MsgOut) (last_cache_update now : Nat) :
    ∃ r : GetResult,
      do_GET "/messages" repos db message_cache last_cache_update now = some r ∧
      r.status = 200 ∧
      ∀ m ∈ r.messages,
        ((MsgOut.toJsonFields m).map Prod.fst).Nodup ∧
        ∀ k : String,
          k ∈ (MsgOut.toJsonFields m).map Prod.fst ↔
          k ∈ ["id", "message", "timestamp", "repository", "author",
            "github_url", "commit_sha"] := by
  refine ⟨_, rfl, rfl, ?_⟩
  intro m _
  constructor
  · show (["id", "message", "timestamp", "github_url", "repository",
      "author", "commit_sha"] : List String).Nodup
    decide
  · intro k
    show k ∈ ["id", "message", "timestamp", "github_url", "repository",
      "author", "commit_sha"] ↔ _
    simp only [List.mem_cons, List.not_mem_nil, or_false]
    tauto

/-! ## Claims about the write path (C9, C5) -/

/-- C9: in the `/chat` write path, each repository iteration that reaches a
successful remote publish inserts the posted message into the local message
store twice — once before the GitHub commit, without `github_url` /
`commit_sha` / `author`, and once after it, with them — producing two
distinct rows with distinct consecutive ids for the same message and
repository. -/
theorem post_success_double_insert
    (create_commit : Repository → String → Except String Commit)
    (message : String) (ts : Nat) (db : DB) (responses : List PostResponse)
    (repo : Repository) (c : Commit)
    (h : create_commit repo message = Except.ok c) :
    ∃ repo_id : Nat,
      (postStep create_commit message ts (db, responses) repo).1.msgs =
        db.msgs ++
          [⟨db.nextMsgId, repo_id, message, ts, none, none, none⟩,
           ⟨db.nextMsgId + 1, repo_id, message, ts, some c.html_url,
             some c.sha, some c.author_name⟩] ∧
      db.nextMsgId ≠ db.nextMsgId + 1 := by
  unfold postStep
  cases hr : db.get_repository_id repo.owner repo.name with
  | some i =>
      refine ⟨i, ?_, by omega⟩
      simp [hr, h, DB.save_message]
  | none =>
      refine ⟨db.nextRepoId, ?_, by omega⟩
      simp [hr, h, DB.save_message, DB.add_repository]

/-- C9, witness: posting `"hello"` to `dbA` through a succeeding publish
yields exactly the two rows with ids 1 and 2. -/
theorem post_success_double_insert_witness :
    ∃ repo_id : Nat,
      (postStep publishOk "hello" 10 (dbA, []) repoA).1.msgs =
        dbA.msgs ++
          [⟨dbA.nextMsgId, repo_id, "hello", 10, none, none, none⟩,
           ⟨dbA.nextMsgId + 1, repo_id, "hello", 10, some "http://u",
             some "sha1", some "bob"⟩] ∧
      dbA.nextMsgId ≠ dbA.nextMsgId + 1 :=
  post_success_double_insert publishOk "hello" 10 dbA [] repoA
    ⟨"hello", 7, "bob", "http://u", "sha1"⟩ rfl

/-- C5, counterexample: a successful write does **not** invalidate the cache.
Concretely: the cache holds `[sampleMsg]` refreshed at time 0; at time 10 a
POST of `"hello"` succeeds and stores the message; the very next read at
time 10 still serves `[sampleMsg]`, which omits `"hello"`. -/
theorem write_then_stale_read_counterexample :
    (do_POST [repoA] dbA (some "hello") publishOk 10).2.body_status =
      "success" ∧
    "hello" ∈ dbAfterPost.msgs.map (fun m => m.message) ∧
    (get_all_messages [repoA] dbAfterPost [sampleMsg] 0 10).1 = [sampleMsg] ∧
    "hello" ∉
      ((get_all_messages [repoA] dbAfterPost [sampleMsg] 0 10).1.map
        (fun m => m.message)) := by
  refine ⟨rfl, ?_, rfl, ?_⟩
  · decide
  · decide

/-- C5, amended: `do_POST` performs no cache invalidation at all, so
read-after-write consistency fails: after any write (successful or not), a
read within `CACHE_DURATION` of the previous cache refresh with a nonempty
cached payload returns that stale pre-write payload unchanged (staleness is
bounded only by the TTL). -/
theorem write_no_invalidation (repos repos' : List Repository) (db : DB)
    (message? : Option String)
    (create_commit : Repository → String → Except String Commit) (ts : Nat)
    (cache : List MsgOut) (lu now : Nat)
    (hfresh : now - lu < CACHE_DURATION) (hne : cache ≠ []) :
    (get_all_messages repos'
      (do_POST repos db message? create_commit ts).1 cache lu now).1 = cache := by
  simp only [get_all_messages, cache_get]
  rw [if_pos ⟨hfresh, hne⟩]

/-- C5, witness: the amended stale-read fact at the concrete post-write
state. -/
theorem write_no_invalidation_witness :
    (get_all_messages [repoA]
      (do_POST [repoA] dbA (some "hello") publishOk 10).1
      [sampleMsg] 0 10).1 = [sampleMsg] :=
  write_no_invalidation [repoA] [repoA] dbA (some "hello") publishOk 10
    [sampleMsg] 0 10 (by decide) (by decide)

/-! ## Claims about the remote aggregation (C3) -/

theorem diag_length_eq_failures (f : Repository → Except String (List Commit))
    (repos : List Repository) :
    (repos.flatMap (diagChunk f)).length =
      (repos.filter (fun r => !(fetchSucceeds f r))).length := by
  induction repos with
  | nil => simp
  | cons r rs ih =>
      cases hf : f r with
      | ok commits =>
          simp [diagChunk, fetchSucceeds, hf, List.filter_cons, ih]
      | error e =>
          simp [diagChunk, fetchSucceeds, hf, List.filter_cons, ih]

/-- C3, counterexample: with one configured source whose fetch fails
(`k = N = 1`) and a local store containing `"hello"`, the aggregation
`fetch_messages_from_all` returns the empty list with one diagnostic — it
does **not** return the local-store results merged in, although the claim
requires the union of successful-source results and local-store results. -/
theorem aggregation_omits_local_store_counterexample :
    (fetch_messages_from_all [repoA] fetchFail).1 = [] ∧
    (fetch_messages_from_all [repoA] fetchFail).2 =
      ["Error fetching from alice/chat: timeout"] ∧
    (dbB.get_messages 100 (some 1)).map (fun m => m.message) = ["hello"] := by
  refine ⟨rfl, rfl, ?_⟩
  decide

/-- C3, amended: `fetch_messages_from_all` never fails as a whole: every
commit of every successful source appears in the output (a per-source
failure never excludes the results of other sources), the output contains
only successful sources' results, there are exactly `k` diagnostics when `k`
sources fail, and the output is sorted by timestamp descending. However it
returns remote results only — local-store results are not merged in (the
local read path `_get_all_messages` conversely never fetches remote
results). -/
theorem fetch_partial_failure_isolation (repos : List Repository)
    (f : Repository → Except String (List Commit)) :
    (∀ repo ∈ repos, ∀ commits, f repo = Except.ok commits →
      ∀ c ∈ commits,
        commitToMessage repo c ∈ (fetch_messages_from_all repos f).1) ∧
    (∀ m ∈ (fetch_messages_from_all repos f).1, ∃ repo ∈ repos, ∃ commits,
      f repo = Except.ok commits ∧ ∃ c ∈ commits, m = commitToMessage repo c) ∧
    (fetch_messages_from_all repos f).2.length =
      (repos.filter (fun r => !(fetchSucceeds f r))).length ∧
    (fetch_messages_from_all repos f).1.Pairwise
      (fun a b => b.timestamp ≤ a.timestamp) := by
  rw [fetch_messages_from_all_eq_flatMap]
  dsimp only
  refine ⟨?_, ?_, diag_length_eq_failures f repos, sortByKeyDesc_pairwise _ _⟩
  · intro repo hrepo commits hok c hc
    apply (sortByKeyDesc_perm (fun m : RemoteMsg => m.timestamp) _).mem_iff.mpr
    apply List.mem_flatMap.mpr
    exact ⟨repo, hrepo, by
      simp only [remoteChunk, hok]
      exact List.mem_map_of_mem _ hc⟩
  · intro m hm
    have hm' := (sortByKeyDesc_perm (fun m : RemoteMsg => m.timestamp) _).mem_iff.mp hm
    rcases List.mem_flatMap.mp hm' with ⟨repo, hrepo, hchunk⟩
    refine ⟨repo, hrepo, ?_⟩
    unfold remoteChunk at hchunk
    cases hok : f repo with
    | ok commits =>
        rw [hok] at hchunk
        rcases List.mem_map.mp hchunk with ⟨c, hc, hcm⟩
        exact ⟨commits, rfl, c, hc, hcm.symm⟩
    | error e =>
        rw [hok] at hchunk
        exact absurd hchunk (List.not_mem_nil m)

/-- C3, witness: with source `repoA` succeeding with one commit and a second
source `("bob", "notes")` failing, the successful source's message is in the
output and there is exactly one diagnostic. -/
theorem fetch_partial_failure_isolation_witness :
    commitToMessage repoA ⟨"hi", 4, "bob", "u", "s"⟩ ∈
      (fetch_messages_from_all [repoA, ⟨"bob", "notes", "t2"⟩]
        (fun r => if r.owner == "alice" then Except.ok [⟨"hi", 4, "bob", "u", "s"⟩]
          else Except.error "timeout")).1 ∧
    (fetch_messages_from_all [repoA, ⟨"bob", "notes", "t2"⟩]
        (fun r => if r.owner == "alice" then Except.ok [⟨"hi", 4, "bob", "u", "s"⟩]
          else Except.error "timeout")).2.length = 1 :=
  ⟨((fetch_partial_failure_isolation [repoA, ⟨"bob", "notes", "t2"⟩] _).1
      repoA (by simp) [⟨"hi", 4, "bob", "u", "s"⟩] rfl
      ⟨"hi", 4, "bob", "u", "s"⟩ (by simp)),
    by
      rw [(fetch_partial_failure_isolation [repoA, ⟨"bob", "notes", "t2"⟩] _).2.2.1]
      decide⟩

/-! ## Claims about the merged read-path output (C2, C1) -/

/-- C2, counterexample: timestamp ties are **not** broken by source identity
then id. With registry order `o/b, o/a, o/c` and three equal-timestamp
messages, the output keeps registry order `b, a, c` — neither ascending nor
descending in the (identity, id) key, so the tie order is insertion order,
not identity order. -/
theorem tie_order_counterexample :
    ((get_all_messages [repoB, repoA2, repoC] dbTies [] 0 400).1.map
      (fun m => (m.repository, m.id, m.timestamp))) =
      [("o/b", 1, 5), ("o/a", 2, 5), ("o/c", 3, 5)] ∧
    ¬ tiesBrokenByIdentity
      (get_all_messages [repoB, repoA2, repoC] dbTies [] 0 400).1 := by
  constructor
  · decide
  · decide

/-- C2, amended: the merged read-path output is sorted by timestamp
descending, and equal-timestamp entries keep the pre-sort collection order
(registry insertion order, then per-repository store order; Python's sort is
stable): each equal-timestamp subsequence of the output coincides with that
of the collected input. On a cache miss (for instance an empty cache) the
read path returns exactly this value, a pure function of registry and
database, so repeated calls with identical inputs return identical output. -/
theorem merged_output_sorted (repos : List Repository) (db : DB) :
    (computeAllMessages repos db).Pairwise
      (fun a b => b.timestamp ≤ a.timestamp) ∧
    (∀ t : Nat, (computeAllMessages repos db).filter
      (fun m => m.timestamp == t) =
      (collectMessages repos db).filter (fun m => m.timestamp == t)) ∧
    (∀ lu now : Nat,
      (get_all_messages repos db [] lu now).1 = computeAllMessages repos db) := by
  refine ⟨sortByKeyDesc_pairwise _ _,
    fun t => sortByKeyDesc_filter_key _ _ t, fun lu now => ?_⟩
  simp [get_all_messages, cache_get, cache_put]

/-! ## Supporting lemmas for the no-duplication claim -/

theorem length_le_one_filter_id (rl : List RepoRow) (x : Nat)
    (h : (rl.map (fun r => r.id)).Nodup) :
    (rl.filter (fun r => r.id == x)).length ≤ 1 := by
  induction rl with
  | nil => simp
  | cons r rs ih =>
      simp only [List.map_cons, List.nodup_cons] at h
      by_cases hr : r.id = x
      · rw [List.filter_cons_of_pos (by simp [hr])]
        have hrest : rs.filter (fun r => r.id == x) = [] := by
          apply List.filter_eq_nil_iff.mpr
          intro a ha hax
          apply h.1
          rw [List.mem_map]
          rw [beq_iff_eq] at hax
          exact ⟨a, ha, by rw [hax, hr]⟩
        simp [hrest]
      · rw [List.filter_cons_of_neg (by simp [hr])]
        exact ih h.2

theorem joined_ids_sublist (rl : List RepoRow) (ml : List MsgRow)
    (h : (rl.map (fun r => r.id)).Nodup) :
    ((ml.flatMap (fun m => (rl.filter (fun r => r.id == m.repository_id)).map
      (fun r => (m, r)))).map (fun p => p.1.id)).Sublist
      (ml.map (fun m => m.id)) := by
  induction ml with
  | nil => simp
  | cons m ms ih =>
      rw [List.flatMap_cons, List.map_append, List.map_cons]
      have hlen := length_le_one_filter_id rl m.repository_id h
      cases hfe : rl.filter (fun r => r.id == m.repository_id) with
      | nil =>
          simp only [List.map_nil, List.nil_append]
          exact ih.cons m.id
      | cons r rest =>
          have h0 : rest.length = 0 := by
            rw [hfe] at hlen
            simp only [List.length_cons] at hlen
            omega
          have hrest : rest = [] := List.eq_nil_of_length_eq_zero h0
          subst hrest
          simp only [List.map_cons, List.map_nil, List.cons_append,
            List.nil_append]
          exact ih.cons₂ m.id

theorem pipeline_ids_nodup (l : List (MsgRow × RepoRow)) (limit : Nat)
    (h : (l.map (fun p => p.1.id)).Nodup) :
    ((((sortByKeyDesc (fun p => p.1.timestamp) l).take limit).map
      rowToOut).map (fun m => m.id)).Nodup := by
  have h4 : ((sortByKeyDesc (fun p : MsgRow × RepoRow => p.1.timestamp) l).map
      (fun p => p.1.id)).Nodup :=
    (((sortByKeyDesc_perm (fun p : MsgRow × RepoRow => p.1.timestamp) l).map
      (fun p => p.1.id)).nodup_iff).mpr h
  have h5 := h4.sublist
    ((List.take_sublist limit _).map (fun p : MsgRow × RepoRow => p.1.id))
  simpa [List.map_map, Function.comp, rowToOut] using h5

theorem get_messages_ids_nodup (db : DB) (limit : Nat) (rid? : Option Nat)
    (hwf : db.WF) :
    ((db.get_messages limit rid?).map (fun m => m.id)).Nodup := by
  obtain ⟨hrep, _, hmsg⟩ := hwf
  have hjoin := hmsg.sublist (joined_ids_sublist db.repos db.msgs hrep)
  unfold DB.get_messages
  cases rid? with
  | none =>
      dsimp only
      exact pipeline_ids_nodup _ limit hjoin
  | some rid =>
      dsimp only
      exact pipeline_ids_nodup _ limit
        (hjoin.sublist ((List.filter_sublist _).map
          (fun p : MsgRow × RepoRow => p.1.id)))

theorem get_messages_mem_src (db : DB) (limit : Nat) (rid : Nat)
    (out : MsgOut) (h : out ∈ db.get_messages limit (some rid)) :
    ∃ m ∈ db.msgs, m.repository_id = rid ∧ out.id = m.id := by
  unfold DB.get_messages at h
  dsimp only at h
  rcases List.mem_map.mp h with ⟨p, hp, hconv⟩
  have hp1 := List.mem_of_mem_take hp
  have hp2 := (sortByKeyDesc_perm
    (fun p : MsgRow × RepoRow => p.1.timestamp) _).subset hp1
  have hp3 := List.mem_filter.mp hp2
  rcases List.mem_flatMap.mp hp3.1 with ⟨m, hm, hpair⟩
  rcases List.mem_map.mp hpair with ⟨r, _, hpr⟩
  have hp1eq : p.1 = m := by rw [← hpr]
  refine ⟨m, hm, ?_, ?_⟩
  · have hq := hp3.2
    rw [beq_iff_eq] at hq
    rw [← hp1eq]
    exact hq
  · rw [← hconv]
    show (rowToOut p).id = m.id
    simp [rowToOut, hp1eq]

theorem get_repository_id_inj (db : DB)
    (hids : (db.repos.map (fun r => r.id)).Nodup)
    (o1 n1 o2 n2 : String) (i : Nat)
    (h1 : db.get_repository_id o1 n1 = some i)
    (h2 : db.get_repository_id o2 n2 = some i) :
    o1 = o2 ∧ n1 = n2 := by
  unfold DB.get_repository_id at h1 h2
  cases hf1 : db.repos.find? (fun r => r.owner == o1 && r.name == n1) with
  | none => rw [hf1] at h1; simp at h1
  | some r1 =>
      cases hf2 : db.repos.find? (fun r => r.owner == o2 && r.name == n2) with
      | none => rw [hf2] at h2; simp at h2
      | some r2 =>
          rw [hf1] at h1
          rw [hf2] at h2
          have hi1 : r1.id = i := by simpa using h1
          have hi2 : r2.id = i := by simpa using h2
          have hm1 := List.mem_of_find?_eq_some hf1
          have hm2 := List.mem_of_find?_eq_some hf2
          have hp1 := List.find?_some hf1
          have hp2 := List.find?_some hf2
          simp only [Bool.and_eq_true, beq_iff_eq] at hp1 hp2
          have he : r1 = r2 :=
            List.inj_on_of_nodup_map hids hm1 hm2 (by rw [hi1, hi2])
          exact ⟨by rw [← hp1.1, he, hp2.1], by rw [← hp1.2, he, hp2.2]⟩

/-- C1, counterexample: the read path performs **no** deduplication. With the
same source registered twice (a reachable registry state: two
`GITHUB_REPO_*` environment entries with the same value, or two
`add_repository` calls) the single stored message is served twice, the two
output entries sharing both source identity and id. -/
theorem duplicate_source_duplicate_output_counterexample :
    ((get_all_messages [repoA, repoA] dbB [] 0 400).1.map
      (fun m => (m.repository, m.id))) =
      [("alice/chat", 1), ("alice/chat", 1)] ∧
    ¬ ((get_all_messages [repoA, repoA] dbB [] 0 400).1.Pairwise
      (fun a b => ¬(a.repository = b.repository ∧ a.id = b.id))) := by
  constructor
  · decide
  · decide

/-- C1, amended: provided the registry's source identities are pairwise
distinct and the database satisfies its schema constraints (`DB.WF`), no two
entries of the merged read-path output share the same local id — in
particular no two entries share the same (source identity, id). The code
itself never deduplicates: the property comes from each underlying store row
being collected at most once, and it fails for duplicate registry entries
(see the counterexample). -/
theorem merged_output_no_duplicates (repos : List Repository) (db : DB)
    (hwf : db.WF)
    (hreg : (repos.map (fun r => (r.owner, r.name))).Nodup) :
    ((computeAllMessages repos db).map (fun m => m.id)).Nodup ∧
    (computeAllMessages repos db).Pairwise
      (fun a b => ¬(a.repository = b.repository ∧ a.id = b.id)) := by
  obtain ⟨hrep, hpairs, hmsg⟩ := hwf
  have hcol : ((collectMessages repos db).map (fun m => m.id)).Nodup := by
    rw [collectMessages_eq_flatMap, List.map_flatMap]
    apply List.nodup_flatMap.mpr
    refine ⟨?_, ?_⟩
    · intro repo _
      unfold localChunk
      cases hr : db.get_repository_id repo.owner repo.name with
      | some rid =>
          exact get_messages_ids_nodup db 100 (some rid) ⟨hrep, hpairs, hmsg⟩
      | none => simp
    · have hpw : repos.Pairwise
          (fun a b => ¬((a.owner, a.name) = (b.owner, b.name))) :=
        List.pairwise_map.mp hreg
      refine hpw.imp ?_
      intro a b hab
      intro x hxa hxb
      unfold localChunk at hxa hxb
      dsimp only at hxa hxb
      cases hra : db.get_repository_id a.owner a.name with
      | none => rw [hra] at hxa; simp at hxa
      | some rida =>
          cases hrb : db.get_repository_id b.owner b.name with
          | none => rw [hrb] at hxb; simp at hxb
          | some ridb =>
              rw [hra] at hxa
              rw [hrb] at hxb
              rcases List.mem_map.mp hxa with ⟨outa, houta, hida⟩
              rcases List.mem_map.mp hxb with ⟨outb, houtb, hidb⟩
              rcases get_messages_mem_src db 100 rida outa houta with
                ⟨m1, hm1, hm1rid, hm1id⟩
              rcases get_messages_mem_src db 100 ridb outb houtb with
                ⟨m2, hm2, hm2rid, hm2id⟩
              have hne : rida ≠ ridb := by
                intro hEq
                apply hab
                have hinj := get_repository_id_inj db hrep a.owner a.name
                  b.owner b.name rida hra (by rw [hEq]; exact hrb)
                rw [hinj.1, hinj.2]
              have hmm : m1 = m2 := List.inj_on_of_nodup_map hmsg hm1 hm2
                (by rw [← hm1id, ← hm2id, hida, hidb])
              exact hne (by rw [← hm1rid, hmm, hm2rid])
  have hout : ((computeAllMessages repos db).map (fun m => m.id)).Nodup :=
    (((sortByKeyDesc_perm (fun m : MsgOut => m.timestamp)
      (collectMessages repos db)).map (fun m => m.id)).nodup_iff).mpr hcol
  refine ⟨hout, ?_⟩
  have hpw2 := List.pairwise_map.mp hout
  exact hpw2.imp (fun h hc => h hc.2)

/-- C1, witness: with the distinct-identity registry `[repoA]` and the
well-formed store `dbB`, the merged output has pairwise-distinct ids. -/
theorem merged_output_no_duplicates_witness :
    ((computeAllMessages [repoA] dbB).map (fun m => m.id)).Nodup :=
  (merged_output_no_duplicates [repoA] dbB (by decide) (by decide)).1
